import Mathlib

/-!
Verification of the NED terminal text editor (`src/main.c`) against its
natural-language specification.

Shallow embedding conventions:
* A text row (`editor_row`) is a `List Nat` of its content bytes (the C code
  tracks `length` explicitly and all row operations are length-based; the
  separate `capacity` field is allocation bookkeeping with no observable
  effect and is not modelled).
* The global `struct editor_config E` becomes the structure `EState`; each C
  function mutating `E` becomes a function `EState -> EState`.
* C `int` fields that the program keeps nonnegative on every path
  (`cursor_x`, `cursor_y`, `row_offset`, `col_offset`, `num_rows`) are
  modelled as `Nat`; `num_rows` is `rows.length`.
* Terminal reads become an explicit input byte list; `write`/`fprintf`
  output becomes explicit byte lists; `fopen` success is an explicit
  `Bool` parameter and `strerror` text an explicit `String` parameter.
* `snprintf`/`vsnprintf` bounded formatting is modelled with `take` at the
  C buffer bounds (all strings involved are ASCII, so chars = bytes here).
-/

namespace Ned

/-- The editor state: the fields of `struct editor_config` that carry
program-visible state (`orig_termios` is terminal plumbing and not
modelled; `num_rows` is `rows.length`). -/
structure EState where
  screen_rows : Nat
  screen_cols : Nat
  cursor_x : Nat
  cursor_y : Nat
  row_offset : Nat
  col_offset : Nat
  rows : List (List Nat)
  filename : String
  modified : Bool
  status_msg : String
  deriving DecidableEq

/-- `set_status_message`: `vsnprintf` into the 80-byte `status_msg` buffer
keeps at most 79 content bytes. -/
def set_status_message (s : EState) (msg : String) : EState :=
  { s with status_msg := msg.take 79 }

/-- `editor_delete_row`: remove the row at index `i` (no-op when out of
range), then re-clamp the cursor exactly as the C code does. -/
def editor_delete_row (s : EState) (i : Nat) : EState :=
  if i ≥ s.rows.length then s
  else
    let rows' := s.rows.take i ++ s.rows.drop (i + 1)
    let cy := if s.cursor_y ≥ rows'.length then
                (if rows'.length ≠ 0 then rows'.length - 1 else 0)
              else s.cursor_y
    let cx := if rows'.length ≠ 0 then
                (let rowlen := (rows'.getD cy []).length
                 if s.cursor_x > rowlen then rowlen else s.cursor_x)
              else 0
    { s with rows := rows', cursor_y := cy, cursor_x := cx, modified := true }

/-- `editor_insert_row`: insert a row with content `x` at index `i`
(no-op when `i > num_rows`). -/
def editor_insert_row (s : EState) (i : Nat) (x : List Nat) : EState :=
  if i > s.rows.length then s
  else { s with rows := s.rows.take i ++ x :: s.rows.drop i, modified := true }

/-- `editor_row_insert_char`: insert byte `c` at offset `i` of a row,
clamping `i` to `[0, length]` first. -/
def editor_row_insert_char (row : List Nat) (i : Nat) (c : Nat) : List Nat :=
  let j := if i > row.length then row.length else i
  row.take j ++ c :: row.drop j

/-- `editor_row_delete_char`: remove the byte at offset `i` of a row
(no-op when out of range). -/
def editor_row_delete_char (row : List Nat) (i : Nat) : List Nat :=
  if i ≥ row.length then row else row.take i ++ row.drop (i + 1)

/-- `editor_insert_char`: ensure a row exists under the cursor (empty
document and past-last-row fallbacks), insert the byte, advance the
column. -/
def editor_insert_char (s : EState) (c : Nat) : EState :=
  let s1 := if s.rows.length = 0 then editor_insert_row s 0 [] else s
  let s2 := if s1.cursor_y = s1.rows.length then
              editor_insert_row s1 s1.rows.length []
            else s1
  let row := s2.rows.getD s2.cursor_y []
  { s2 with rows := s2.rows.set s2.cursor_y (editor_row_insert_char row s2.cursor_x c),
            modified := true, cursor_x := s2.cursor_x + 1 }

/-- `editor_insert_newline` (the Enter operation / spec `split_line`):
four cases in the source's priority order. -/
def editor_insert_newline (s : EState) : EState :=
  if s.rows.length = 0 then
    let s1 := editor_insert_row s 0 []
    let s2 := editor_insert_row s1 1 []
    { s2 with cursor_y := 1, cursor_x := 0 }
  else if s.cursor_y ≥ s.rows.length then
    let s1 := editor_insert_row s s.rows.length []
    { s1 with cursor_y := s1.rows.length - 1, cursor_x := 0 }
  else if s.cursor_x = 0 then
    let s1 := editor_insert_row s s.cursor_y []
    { s1 with cursor_y := s.cursor_y + 1, cursor_x := 0 }
  else
    let row := s.rows.getD s.cursor_y []
    let tail := row.drop s.cursor_x
    let s1 := editor_insert_row s (s.cursor_y + 1) tail
    { s1 with rows := s1.rows.set s.cursor_y (row.take s.cursor_x),
              cursor_y := s.cursor_y + 1, cursor_x := 0 }

/-- `editor_delete_char` (the Backspace operation): delete the byte left
of the cursor, or merge the current line into the previous one when the
cursor is at column 0. -/
def editor_delete_char (s : EState) : EState :=
  if s.rows.length = 0 then s
  else if s.cursor_y ≥ s.rows.length then s
  else if s.cursor_x = 0 ∧ s.cursor_y = 0 then s
  else
    let row := s.rows.getD s.cursor_y []
    if s.cursor_x > 0 then
      let modified' := if s.cursor_x - 1 < row.length then true else s.modified
      { s with rows := s.rows.set s.cursor_y (editor_row_delete_char row (s.cursor_x - 1)),
               cursor_x := s.cursor_x - 1, modified := modified' }
    else
      let prev := s.cursor_y - 1
      let prev_len := (s.rows.getD prev []).length
      let s1 := { s with rows := s.rows.set prev (s.rows.getD prev [] ++ row),
                         modified := true }
      let s2 := editor_delete_row s1 s.cursor_y
      { s2 with cursor_y := prev, cursor_x := prev_len }

/-- `editor_move_cursor`: arrow-key motion; `key` is the raw byte the C
switch receives (65 `A` Up, 66 `B` Down, 67 `C` Right, 68 `D` Left). -/
def editor_move_cursor (s : EState) (key : Nat) : EState :=
  if s.rows.length = 0 then s
  else
    let s1 :=
      if key = 65 then
        (if s.cursor_y > 0 then { s with cursor_y := s.cursor_y - 1 } else s)
      else if key = 66 then
        (if s.cursor_y < s.rows.length - 1 then { s with cursor_y := s.cursor_y + 1 } else s)
      else if key = 68 then
        (if s.cursor_x > 0 then { s with cursor_x := s.cursor_x - 1 }
         else if s.cursor_y > 0 then
           { s with cursor_y := s.cursor_y - 1,
                    cursor_x := (s.rows.getD (s.cursor_y - 1) []).length }
         else s)
      else if key = 67 then
        (if s.cursor_y < s.rows.length ∧ s.cursor_x < (s.rows.getD s.cursor_y []).length then
           { s with cursor_x := s.cursor_x + 1 }
         else if s.cursor_y < s.rows.length - 1 then
           { s with cursor_y := s.cursor_y + 1, cursor_x := 0 }
         else s)
      else s
    let rowlen := if s1.cursor_y ≥ s1.rows.length then 0
                  else (s1.rows.getD s1.cursor_y []).length
    if s1.cursor_x > rowlen then { s1 with cursor_x := rowlen } else s1

/-- `editor_scroll`: recompute the viewport offsets from the cursor,
reserving two terminal rows for the status and message bars. -/
def editor_scroll (s : EState) : EState :=
  let ro1 := if s.cursor_y < s.row_offset then s.cursor_y else s.row_offset
  let ro2 := if s.cursor_y ≥ ro1 + (s.screen_rows - 2) then
               s.cursor_y - (s.screen_rows - 2) + 1
             else ro1
  let co1 := if s.cursor_x < s.col_offset then s.cursor_x else s.col_offset
  let co2 := if s.cursor_x ≥ co1 + s.screen_cols then
               s.cursor_x - s.screen_cols + 1
             else co1
  { s with row_offset := ro2, col_offset := co2 }

/-- ASCII bytes of a string (all strings handled here are ASCII). -/
def strBytes (t : String) : List Nat := t.toList.map Char.toNat

/-- `fprintf(fp, "%s\n", chars)` emits a row's bytes up to the first NUL,
then a newline. -/
def rowSaveBytes (row : List Nat) : List Nat := row.takeWhile (fun b => b != 0)

/-- `save_file`'s output stream: each row followed by one newline byte. -/
def saveBytes (rows : List (List Nat)) : List Nat :=
  rows.foldr (fun r acc => rowSaveBytes r ++ 10 :: acc) []

/-- `save_file`: result state plus the optional `(path, bytes)` write.
`fsOk` tells whether `fopen(filename, "w")` succeeds and `err` is the
`strerror(errno)` text for the failing case. -/
def save_file (fsOk : Bool) (err : String) (s : EState) :
    EState × Option (String × List Nat) :=
  if s.filename = "" then (set_status_message s "ERROR: No filename", none)
  else if fsOk = false then (set_status_message s ("I/O error: " ++ err), none)
  else (set_status_message { s with modified := false } ("Saved: " ++ s.filename),
        some (s.filename, saveBytes s.rows))

/-- One `getline` pass over a byte stream: chunks end after each newline
byte; a final chunk without a newline is still returned. -/
def getline_go (acc : List Nat) : List Nat → List (List Nat)
  | [] => if acc = [] then [] else [acc]
  | b :: rest =>
    if b = 10 then (acc ++ [10]) :: getline_go [] rest
    else getline_go (acc ++ [b]) rest

/-- `open_file`'s per-line stripping: drop every trailing newline or
carriage-return byte. -/
def stripTrailingCRLF (l : List Nat) : List Nat :=
  (l.reverse.dropWhile (fun b => b == 10 || b == 13)).reverse

/-- The line contents `open_file` builds from a raw byte stream. -/
def parsedLines (bytes : List Nat) : List (List Nat) :=
  (getline_go [] bytes).map stripTrailingCRLF

/-- `open_file`: record the (truncated) filename; when the file exists,
append each stripped line with `editor_insert_row` at the end, clear the
dirty flag and report; otherwise report a new file. `path?` is the
`argv` path (`none` when absent) and `content?` the file's bytes
(`none` when `fopen` fails). -/
def open_file (s : EState) (path? : Option String) (content? : Option (List Nat)) :
    EState :=
  match path? with
  | none =>
    set_status_message { s with filename := "" } "New file: (unnamed)"
  | some p =>
    let s0 := { s with filename := p.take 255 }
    match content? with
    | none =>
      set_status_message s0
        ("New file: " ++ (if s0.filename = "" then "(unnamed)" else s0.filename))
    | some bytes =>
      let s1 := (parsedLines bytes).foldl
        (fun st l => editor_insert_row st st.rows.length l) s0
      set_status_message { s1 with modified := false } ("Opened: " ++ s1.filename)

/-- `draw_status_bar`: the exact bytes appended for the status band.
Note the source passes length 3 for the 4-character literal
ESC `[7m`, so only ESC `[` `7` reach the output; the closing
ESC `[m` CR LF is appended with its correct length 5.  The
`snprintf` buffer bound (160 bytes, so at most 159 content bytes) is
modelled with `take 159`. -/
def draw_status_bar (s : EState) : List Nat :=
  let status := strBytes ("[" ++ (if s.filename = "" then "[No Name]" else s.filename)
                   ++ "] " ++ (if s.modified then "*" else ""))
  let len0 := status.length
  let buf := status.take 159
  let len := if len0 > s.screen_cols then s.screen_cols else len0
  [27, 91, 55] ++ buf.take len ++ List.replicate (s.screen_cols - len) 32
    ++ [27, 91, 109, 13, 10]

/-- `read_key`: decode one logical key from the input byte stream,
returning the key and the unconsumed rest (`none` when the blocking
read yields nothing, i.e. the C function returns -1). -/
def read_key : List Nat → Option (Nat × List Nat)
  | [] => none
  | c :: rest =>
    if c ≠ 27 then some (c, rest)
    else
      match rest with
      | [] => some (27, [])
      | s1 :: rest2 =>
        if s1 ≠ 91 then some (27, rest2)
        else
          match rest2 with
          | [] => some (27, [])
          | s2 :: rest3 =>
            if s2 = 65 ∨ s2 = 66 ∨ s2 = 67 ∨ s2 = 68 then some (s2, rest3)
            else some (27, rest3)

/-- Result of one `process_keypress` step: whether the process exits,
the resulting editor state, the file writes performed, and the
unconsumed input. -/
structure StepOut where
  quit : Bool
  st : EState
  wrote : List (String × List Nat)
  rest : List Nat
  deriving DecidableEq

/-- `process_keypress`: read one key and dispatch exactly as the C
switch does (13 Enter, 17 Ctrl-Q, 19 Ctrl-S, 127 Backspace, 65-68
arrows, printable 32..126 insert, anything else ignored). -/
def process_keypress (fsOk : Bool) (err : String) (s : EState)
    (input : List Nat) : StepOut :=
  match read_key input with
  | none => ⟨false, s, [], []⟩
  | some (k, rest) =>
    if k = 13 then ⟨false, editor_insert_newline s, [], rest⟩
    else if k = 17 then ⟨true, s, [], rest⟩
    else if k = 19 then
      let r := save_file fsOk err s
      ⟨false, r.1, r.2.toList, rest⟩
    else if k = 127 then ⟨false, editor_delete_char s, [], rest⟩
    else if k = 65 ∨ k = 66 ∨ k = 67 ∨ k = 68 then
      ⟨false, editor_move_cursor s k, [], rest⟩
    else if 32 ≤ k ∧ k < 127 then ⟨false, editor_insert_char s k, [], rest⟩
    else ⟨false, s, [], rest⟩

/-- `init_editor` with the given terminal dimensions. -/
def init_editor (sr sc : Nat) : EState :=
  { screen_rows := sr, screen_cols := sc, cursor_x := 0, cursor_y := 0,
    row_offset := 0, col_offset := 0, rows := [], filename := "",
    modified := false, status_msg := "" }

/-- The spec's cursor invariant: either the cursor row is a real row and
the column is within that row, or the row is the past-last-line
position `num_lines` and the column is 0. -/
abbrev cursorInv (s : EState) : Prop :=
  (s.cursor_y < s.rows.length ∧ s.cursor_x ≤ (s.rows.getD s.cursor_y []).length) ∨
  (s.cursor_y = s.rows.length ∧ s.cursor_x = 0)

/-! List helper lemmas used to reason about the row operations. -/

theorem getD_app_right {α : Type} (l₁ l₂ : List α) (d : α) (i : Nat) :
    (l₁ ++ l₂).getD (l₁.length + i) d = l₂.getD i d := by
  induction l₁ with
  | nil => simp
  | cons a t ih =>
    have h1 : t.length + 1 + i = (t.length + i) + 1 := by omega
    simp only [List.cons_append, List.length_cons, h1, List.getD_cons_succ]
    exact ih

theorem getD_app_lt {α : Type} (l₁ l₂ : List α) (d : α) (i : Nat)
    (h : i < l₁.length) : (l₁ ++ l₂).getD i d = l₁.getD i d := by
  induction l₁ generalizing i with
  | nil => simp at h
  | cons a t ih =>
    cases i with
    | zero => simp [List.getD_cons_zero]
    | succ j =>
      have hj : j < t.length := by simp only [List.length_cons] at h; omega
      simp only [List.cons_append, List.getD_cons_succ]
      exact ih j hj

theorem set_app_len {α : Type} (l₁ : List α) (x y : α) (l₂ : List α) :
    (l₁ ++ x :: l₂).set l₁.length y = l₁ ++ y :: l₂ := by
  induction l₁ with
  | nil => simp
  | cons a t ih =>
    simp only [List.cons_append, List.length_cons, List.set, List.append_eq]
    rw [ih]

theorem getD_set_self {α : Type} (l : List α) (i : Nat) (x d : α)
    (h : i < l.length) : (l.set i x).getD i d = x := by
  induction l generalizing i with
  | nil => simp at h
  | cons a t ih =>
    cases i with
    | zero => simp [List.set, List.getD_cons_zero]
    | succ j =>
      have hj : j < t.length := by simp only [List.length_cons] at h; omega
      simpa [List.set, List.getD_cons_succ] using ih j hj

theorem getD_take_lt {α : Type} (l : List α) (i j : Nat) (d : α)
    (h : j < i) : (l.take i).getD j d = l.getD j d := by
  induction l generalizing i j with
  | nil => simp
  | cons a t ih =>
    cases i with
    | zero => omega
    | succ i' =>
      cases j with
      | zero => simp [List.getD_cons_zero]
      | succ j' =>
        have hj : j' < i' := by omega
        simpa [List.getD_cons_succ] using ih i' j' hj

theorem decomp_at {α : Type} (l : List α) (i : Nat) (d : α) (h : i < l.length) :
    l = l.take i ++ l.getD i d :: l.drop (i + 1) := by
  induction l generalizing i with
  | nil => simp at h
  | cons a t ih =>
    cases i with
    | zero => simp [List.getD_cons_zero]
    | succ j =>
      have hj : j < t.length := by simp only [List.length_cons] at h; omega
      have := ih j hj
      simpa [List.getD_cons_succ] using congrArg (a :: ·) this

theorem drop_cons_getD {α : Type} (l : List α) (i : Nat) (d : α) (h : i < l.length) :
    l.drop i = l.getD i d :: l.drop (i + 1) := by
  induction l generalizing i with
  | nil => simp at h
  | cons a t ih =>
    cases i with
    | zero => simp [List.getD_cons_zero]
    | succ j =>
      have hj : j < t.length := by simp only [List.length_cons] at h; omega
      simpa [List.getD_cons_succ] using ih j hj

theorem take_set_succ {α : Type} (l : List α) (i : Nat) (M : α) (h : i < l.length) :
    (l.set i M).take (i + 1) = l.take i ++ [M] := by
  induction l generalizing i with
  | nil => simp at h
  | cons a t ih =>
    cases i with
    | zero => simp [List.set]
    | succ j =>
      have hj : j < t.length := by simp only [List.length_cons] at h; omega
      simp [List.set, ih j hj]

theorem drop_set_of_lt {α : Type} (l : List α) (i j : Nat) (M : α) (h : i < j) :
    (l.set i M).drop j = l.drop j := by
  induction l generalizing i j with
  | nil => simp
  | cons a t ih =>
    cases i with
    | zero =>
      cases j with
      | zero => omega
      | succ j' => simp [List.set]
    | succ i' =>
      cases j with
      | zero => omega
      | succ j' =>
        have hij : i' < j' := by omega
        simp [List.set, ih i' j' hij]

theorem getD_app_at_len {α : Type} (l₁ : List α) (x : α) (l₂ : List α) (d : α)
    (i : Nat) (hi : i = l₁.length) : (l₁ ++ x :: l₂).getD i d = x := by
  subst hi
  simpa using getD_app_right l₁ (x :: l₂) d 0

theorem takeWhile_ne_zero (r : List Nat) (h : ∀ b ∈ r, b ≠ 0) :
    r.takeWhile (fun b => b != 0) = r := by
  induction r with
  | nil => rfl
  | cons a t ih =>
    have ha : a ≠ 0 := h a (List.mem_cons_self a t)
    have ht : ∀ b ∈ t, b ≠ 0 := fun b hb => h b (List.mem_cons_of_mem a hb)
    have hb : (a != 0) = true := bne_iff_ne.mpr ha
    simp [List.takeWhile, hb, ih ht]

theorem dropWhile_of_all_neg {α : Type} (p : α → Bool) (m : List α)
    (h : ∀ b ∈ m, p b = false) : m.dropWhile p = m := by
  cases m with
  | nil => rfl
  | cons a t => simp [List.dropWhile, h a (List.mem_cons_self a t)]

theorem strip_app_ten (l : List Nat) (h : ∀ b ∈ l, b ≠ 10 ∧ b ≠ 13) :
    stripTrailingCRLF (l ++ [10]) = l := by
  have hrev : ∀ b ∈ l.reverse, ((b == 10 || b == 13) : Bool) = false := by
    intro b hb
    have hb' := List.mem_reverse.mp hb
    have := h b hb'
    simp [this.1, this.2]
  simp only [stripTrailingCRLF, List.reverse_append, List.reverse_singleton,
    List.singleton_append]
  rw [List.dropWhile_cons_of_pos (by simp), dropWhile_of_all_neg _ _ hrev,
    List.reverse_reverse]

theorem getline_go_chunk (l : List Nat) (h10 : ∀ b ∈ l, b ≠ 10) (acc rest : List Nat) :
    getline_go acc (l ++ 10 :: rest) = (acc ++ l ++ [10]) :: getline_go [] rest := by
  induction l generalizing acc with
  | nil => simp [getline_go]
  | cons a t ih =>
    have ha : a ≠ 10 := h10 a (List.mem_cons_self a t)
    have ht : ∀ b ∈ t, b ≠ 10 := fun b hb => h10 b (List.mem_cons_of_mem a hb)
    simp only [List.cons_append, getline_go, if_neg ha, List.append_eq]
    rw [ih ht (acc ++ [a])]
    simp


/-! Invariant preservation, one lemma per mutating operation. -/

theorem inv_insert_char (s : EState) (h : cursorInv s) (c : Nat) :
    cursorInv (editor_insert_char s c) := by
  obtain ⟨sr, sc, cx, cy, ro, co, rows, fn, md, msg⟩ := s
  simp only [cursorInv] at h ⊢
  rcases h with ⟨hlt, hcol⟩ | ⟨heq, hx⟩
  · have hn : ¬ rows.length = 0 := by omega
    have hne : ¬ cy = rows.length := by omega
    simp only [editor_insert_char, hn, hne, if_false, ite_false]
    left
    rw [List.length_set, getD_set_self _ _ _ _ hlt]
    refine ⟨hlt, ?_⟩
    have hc : ¬ cx > (rows.getD cy []).length := by omega
    simp only [editor_row_insert_char, hc, if_false, ite_false, List.length_append,
      List.length_cons, List.length_take, List.length_drop]
    omega
  · rcases Nat.eq_zero_or_pos rows.length with hn0 | hpos
    · have hrows : rows = [] := List.length_eq_zero.mp hn0
      have hcy : cy = 0 := by omega
      subst hrows hcy hx
      simp [editor_insert_char, editor_insert_row, editor_row_insert_char]
    · have hn : ¬ rows.length = 0 := by omega
      subst heq hx
      have hg : ¬ rows.length > rows.length := by omega
      simp only [editor_insert_char, hn, if_false, ite_false, if_pos rfl, if_true,
        editor_insert_row, hg, List.take_length, List.drop_length]
      have hget : ((rows ++ [[]] : List (List Nat)).getD rows.length []) = [] := by
        simp
      have hset : ((rows ++ [[]] : List (List Nat)).set rows.length
          (editor_row_insert_char [] 0 c)) = rows ++ [[c]] := by
        simp [editor_row_insert_char]
      simp only [hget, hset]
      left
      constructor
      · simp
      · have hg2 : ((rows ++ [[c]] : List (List Nat)).getD rows.length []) = [c] := by
          simp
        simp [hg2]

theorem inv_insert_newline (s : EState) (h : cursorInv s) :
    cursorInv (editor_insert_newline s) := by
  obtain ⟨sr, sc, cx, cy, ro, co, rows, fn, md, msg⟩ := s
  simp only [cursorInv] at h ⊢
  by_cases hn : rows.length = 0
  · have hrows : rows = [] := List.length_eq_zero.mp hn
    subst hrows
    simp [editor_insert_newline, editor_insert_row]
  · by_cases hcy : cy ≥ rows.length
    · have hg : ¬ rows.length > rows.length := by omega
      simp only [editor_insert_newline, hn, if_false, ite_false, if_pos hcy,
        editor_insert_row, hg, List.take_length, List.drop_length]
      left
      simp
    · have hcy' : ¬ cy ≥ rows.length := hcy
      by_cases hcx : cx = 0
      · have hg : ¬ cy > rows.length := by omega
        simp only [editor_insert_newline, hn, if_false, ite_false, hcy', hcx,
          if_pos rfl, if_true, editor_insert_row, hg]
        left
        constructor
        · simp only [List.length_append, List.length_cons, List.length_take,
            List.length_drop]
          omega
        · omega
      · have hg : ¬ cy + 1 > rows.length := by omega
        simp only [editor_insert_newline, hn, if_false, ite_false, hcy', hcx,
          editor_insert_row, hg]
        left
        constructor
        · simp only [List.length_set, List.length_append, List.length_cons,
            List.length_take, List.length_drop]
          omega
        · omega

theorem inv_delete_row (s : EState) (h : cursorInv s) (i : Nat) :
    cursorInv (editor_delete_row s i) := by
  obtain ⟨sr, sc, cx, cy, ro, co, rows, fn, md, msg⟩ := s
  simp only [cursorInv] at h ⊢
  by_cases hi : i ≥ rows.length
  · simp only [editor_delete_row, if_pos hi]
    exact h
  · simp only [editor_delete_row, hi, if_false, ite_false]
    split_ifs <;> omega

/-- The merge case of `editor_delete_char` (cursor at column 0 of a real,
non-first row): the current row's bytes are appended to the previous row,
the current row is removed, and the cursor lands at the end of the old
previous-row content. -/
theorem delete_char_merge (s : EState) (hlt : s.cursor_y < s.rows.length)
    (h0 : s.cursor_x = 0) (hpos : 0 < s.cursor_y) :
    editor_delete_char s =
      { s with
        rows := s.rows.take (s.cursor_y - 1) ++
          (s.rows.getD (s.cursor_y - 1) [] ++ s.rows.getD s.cursor_y []) ::
            s.rows.drop (s.cursor_y + 1),
        cursor_y := s.cursor_y - 1,
        cursor_x := (s.rows.getD (s.cursor_y - 1) []).length,
        modified := true } := by
  obtain ⟨sr, sc, cx, cy, ro, co, rows, fn, md, msg⟩ := s
  simp only at hlt h0 hpos
  subst h0
  have hn : ¬ rows.length = 0 := by omega
  have hcy : ¬ cy ≥ rows.length := by omega
  have hcy0 : ¬ cy = 0 := by omega
  have hx : ¬ ((0:Nat) > 0) := by omega
  simp only [editor_delete_char, hn, hcy, hcy0, hx, if_false, ite_false,
    and_false, eq_self_iff_true, true_and]
  have hlen : (rows.set (cy - 1) (rows.getD (cy - 1) [] ++ rows.getD cy [])).length
      = rows.length := by simp
  have hguard : ¬ cy ≥ (rows.set (cy - 1)
      (rows.getD (cy - 1) [] ++ rows.getD cy [])).length := by rw [hlen]; omega
  simp only [editor_delete_row, hguard, if_false, ite_false]
  have e1 : cy - 1 + 1 = cy := by omega
  have htk : ((rows.set (cy - 1) (rows.getD (cy - 1) [] ++ rows.getD cy [])).take cy)
      = rows.take (cy - 1) ++ [rows.getD (cy - 1) [] ++ rows.getD cy []] := by
    rw [← e1]
    exact take_set_succ rows (cy - 1) _ (by omega)
  have hdp : ((rows.set (cy - 1) (rows.getD (cy - 1) [] ++ rows.getD cy [])).drop (cy + 1))
      = rows.drop (cy + 1) := drop_set_of_lt rows (cy - 1) (cy + 1) _ (by omega)
  simp only [htk, hdp, EState.mk.injEq]
  simp

theorem inv_delete_char (s : EState) (h : cursorInv s) :
    cursorInv (editor_delete_char s) := by
  obtain ⟨sr, sc, cx, cy, ro, co, rows, fn, md, msg⟩ := s
  simp only [cursorInv] at h ⊢
  by_cases hn : rows.length = 0
  · simp only [editor_delete_char, if_pos hn]
    exact h
  · by_cases hcy : cy ≥ rows.length
    · simp only [editor_delete_char, hn, if_false, ite_false, if_pos hcy]
      exact h
    · by_cases h00 : cx = 0 ∧ cy = 0
      · simp only [editor_delete_char, hn, hcy, if_false, ite_false, if_pos h00]
        exact h
      · have hlt : cy < rows.length := by omega
        have hcol : cx ≤ (rows.getD cy []).length := by
          rcases h with ⟨_, hc⟩ | ⟨he, _⟩
          · exact hc
          · omega
        by_cases hx : cx > 0
        · simp only [editor_delete_char, hn, hcy, h00, if_false, ite_false, if_pos hx]
          left
          rw [List.length_set, getD_set_self _ _ _ _ hlt]
          refine ⟨hlt, ?_⟩
          have hd : ¬ cx - 1 ≥ (rows.getD cy []).length := by omega
          simp only [editor_row_delete_char, hd, if_false, ite_false,
            List.length_append, List.length_take, List.length_drop]
          omega
        · have hx0 : cx = 0 := by omega
          subst hx0
          rw [delete_char_merge ⟨sr, sc, 0, cy, ro, co, rows, fn, md, msg⟩ hlt rfl
            (by show 0 < cy; omega)]
          dsimp only
          left
          constructor
          · simp only [List.length_append, List.length_cons, List.length_take,
              List.length_drop]
            omega
          · rw [getD_app_at_len _ _ _ _ _ (by simp [List.length_take]; omega)]
            simp

/-- The final clamp of `editor_move_cursor` re-establishes the cursor
invariant for any intermediate state whose row index is in bounds. -/
theorem inv_clamp (s1 : EState) (hcy1 : s1.cursor_y ≤ s1.rows.length) :
    cursorInv
      (if s1.cursor_x > (if s1.cursor_y ≥ s1.rows.length then 0
          else (s1.rows.getD s1.cursor_y []).length) then
        { s1 with cursor_x := (if s1.cursor_y ≥ s1.rows.length then 0
            else (s1.rows.getD s1.cursor_y []).length) }
      else s1) := by
  by_cases hge : s1.cursor_y ≥ s1.rows.length
  · have he : s1.cursor_y = s1.rows.length := by omega
    simp only [hge, if_true, ite_true]
    by_cases hx : s1.cursor_x > 0
    · simp only [hx, if_true, ite_true]
      right
      exact ⟨he, rfl⟩
    · have hx0 : s1.cursor_x = 0 := by omega
      simp only [hx, if_false, ite_false]
      right
      exact ⟨he, hx0⟩
  · simp only [hge, if_false, ite_false]
    by_cases hx : s1.cursor_x > (s1.rows.getD s1.cursor_y []).length
    · simp only [hx, if_true, ite_true]
      left
      refine ⟨?_, ?_⟩ <;> dsimp only <;> omega
    · simp only [hx, if_false, ite_false]
      left
      exact ⟨by omega, by omega⟩

theorem inv_move_cursor (s : EState) (h : cursorInv s) (key : Nat) :
    cursorInv (editor_move_cursor s key) := by
  have hcy : s.cursor_y ≤ s.rows.length := by
    rcases h with ⟨hlt, _⟩ | ⟨heq, _⟩ <;> omega
  by_cases hn : s.rows.length = 0
  · simp only [editor_move_cursor, if_pos hn]
    exact h
  · simp only [editor_move_cursor, hn, if_false, ite_false]
    apply inv_clamp
    split_ifs <;> (try dsimp only) <;> omega



/-! Concrete states used by individual claims. -/

def stC1w : EState :=
  { init_editor 24 80 with rows := [[97, 98], [99, 100]], cursor_y := 1, cursor_x := 1 }

def stC2 : EState :=
  { init_editor 24 80 with rows := [[97, 98], [99, 100]], cursor_y := 1, cursor_x := 1 }

def stC9 : EState := { init_editor 24 10 with filename := "f", modified := true }

/-! Claim theorems. -/

/-- Claim C1 (counterexample): the claim quantifies over `insert_line`
(`editor_insert_row`) as one of the operations, but `editor_insert_row`
never re-clamps the cursor: starting from the reachable state obtained by
typing `a` into an empty editor (cursor at column 1 of line `a`),
inserting an empty line at index 0 leaves the cursor at column 1 of the
new empty line 0, violating `col <= length(line[row])`. -/
theorem C1_counterexample :
    cursorInv (editor_insert_char (init_editor 24 80) 97) ∧
    ¬ cursorInv (editor_insert_row (editor_insert_char (init_editor 24 80) 97) 0 []) := by
  decide

/-- Claim C1 (amended): after each of `insert_char`, `delete_char`
(Backspace), `split_line` (`editor_insert_newline`), `delete_line`
(`editor_delete_row`, any index) and `move` (`editor_move_cursor`, any
key), the cursor satisfies `0 <= row <= num_lines`,
`col <= length(line[row])` when `row < num_lines` and `col = 0` when
`row = num_lines`, whenever it did before the operation; `insert_line`
alone is excluded, since it does not re-clamp the cursor. -/
theorem C1_cursor_invariant_preserved (s : EState) (c i k : Nat) (h : cursorInv s) :
    cursorInv (editor_insert_char s c) ∧
    cursorInv (editor_delete_char s) ∧
    cursorInv (editor_insert_newline s) ∧
    cursorInv (editor_delete_row s i) ∧
    cursorInv (editor_move_cursor s k) :=
  ⟨inv_insert_char s h c, inv_delete_char s h, inv_insert_newline s h,
   inv_delete_row s h i, inv_move_cursor s h k⟩

/-- Witness for C1: the invariant hypothesis is satisfiable and the
conclusion holds at a concrete state and arguments. -/
theorem C1_cursor_invariant_preserved_witness :
    cursorInv stC1w ∧
    (cursorInv (editor_insert_char stC1w 97) ∧
     cursorInv (editor_delete_char stC1w) ∧
     cursorInv (editor_insert_newline stC1w) ∧
     cursorInv (editor_delete_row stC1w 0) ∧
     cursorInv (editor_move_cursor stC1w 65)) :=
  ⟨by decide, C1_cursor_invariant_preserved stC1w 97 0 65 (by decide)⟩

/-- Claim C2 (code evaluated at the failing input): the lone printable
byte 65 `A` is decoded by `read_key` as the plain byte 65, yet
`process_keypress` dispatches 65 as the Up directional command: from
state `["ab","cd"]` with cursor (1,1) the cursor moves to (0,1) and no
byte is inserted — contradicting the claim that every printable byte
32..126 outside an escape sequence is inserted at the cursor and that
only ESC `[` A/B/C/D sequences produce directional commands. -/
theorem C2_printable_A_moves_cursor :
    read_key [65] = some (65, []) ∧
    (process_keypress true "" stC2 [65]).st.rows = [[97, 98], [99, 100]] ∧
    (process_keypress true "" stC2 [65]).st.cursor_y = 0 ∧
    (process_keypress true "" stC2 [65]).st.cursor_x = 1 ∧
    (process_keypress true "" stC2 [65]).quit = false := by
  decide

/-- Claim C9 (code evaluated at the failing input): in every frame the
status band is emitted as ESC `[` `7` (three bytes), not the complete
four-byte reverse-video directive ESC `[` `7` `m` — the source appends
the 4-character literal with length 3, dropping the final `m` (109).
Shown here on a 10-column terminal with filename "f" and the dirty flag
set: the `m` byte does not follow ESC `[` `7`. -/
theorem C9_status_bar_truncated_escape :
    draw_status_bar stC9 =
      [27, 91, 55, 91, 102, 93, 32, 42, 32, 32, 32, 32, 32, 27, 91, 109, 13, 10] ∧
    (draw_status_bar stC9).take 4 ≠ [27, 91, 55, 109] := by
  exact ⟨by rfl, by decide⟩

/-- Claim C10: the Quit command (Ctrl-Q, byte 17) terminates the editor
immediately and unconditionally: for every editor state — including a
dirty one — the keypress step reports quit, performs no file write, and
never touches the document or prompts, discarding unsaved changes. -/
theorem C10_quit_immediate (fsOk : Bool) (err : String) (s : EState) (rest : List Nat) :
    process_keypress fsOk err s (17 :: rest) = ⟨true, s, [], rest⟩ := by
  rfl

/-- Witness for C10: Ctrl-Q on a dirty, named document quits without
writing. -/
theorem C10_quit_immediate_witness :
    process_keypress false "" stC10w [17] = ⟨true, stC10w, [], []⟩ :=
  C10_quit_immediate false "" stC10w []



def stC7 : EState := { init_editor 5 80 with rows := List.replicate 11 [] }

/-- The claim's scenario: from the top of an 11-line document on a
terminal with 3 visible text rows, press Down ten times, scrolling after
each step (as the refresh loop does). -/
def scenC7 : EState :=
  (List.range 10).foldl (fun st _ => editor_scroll (editor_move_cursor st 66)) stC7

/-- Claim C7: `editor_scroll` applies exactly the scroll-follows-cursor
rules with `visible_rows = screen_rows - 2` and
`visible_cols = screen_cols`; consequently the cursor ends inside the
viewport, offsets are unchanged when the cursor is already in view, and
the one-row-at-a-time Down scenario with 3 visible rows ends with
`row_offset = 8` at cursor row 10. -/
theorem C7_scroll_spec (s : EState) (hr : 3 ≤ s.screen_rows) (hc : 1 ≤ s.screen_cols) :
    (editor_scroll s).row_offset =
      (if s.cursor_y < s.row_offset then s.cursor_y
       else if s.cursor_y ≥ s.row_offset + (s.screen_rows - 2) then
         s.cursor_y - (s.screen_rows - 2) + 1
       else s.row_offset) ∧
    (editor_scroll s).col_offset =
      (if s.cursor_x < s.col_offset then s.cursor_x
       else if s.cursor_x ≥ s.col_offset + s.screen_cols then
         s.cursor_x - s.screen_cols + 1
       else s.col_offset) ∧
    ((editor_scroll s).row_offset ≤ s.cursor_y ∧
      s.cursor_y < (editor_scroll s).row_offset + (s.screen_rows - 2)) ∧
    ((editor_scroll s).col_offset ≤ s.cursor_x ∧
      s.cursor_x < (editor_scroll s).col_offset + s.screen_cols) ∧
    ((s.row_offset ≤ s.cursor_y ∧ s.cursor_y < s.row_offset + (s.screen_rows - 2)) →
      (editor_scroll s).row_offset = s.row_offset) ∧
    ((s.col_offset ≤ s.cursor_x ∧ s.cursor_x < s.col_offset + s.screen_cols) →
      (editor_scroll s).col_offset = s.col_offset) ∧
    (scenC7.row_offset = 8 ∧ scenC7.cursor_y = 10) := by
  refine ⟨?_, ?_, ?_, ?_, ?_, ?_, by decide⟩ <;>
    (simp only [editor_scroll]; split_ifs <;> (try dsimp only) <;> omega)

/-- Witness for C7: the geometry hypotheses hold at the scenario state
and the theorem applies there. -/
theorem C7_scroll_spec_witness :
    3 ≤ stC7.screen_rows ∧ 1 ≤ stC7.screen_cols ∧
    (editor_scroll stC7).row_offset ≤ stC7.cursor_y ∧
    scenC7.row_offset = 8 :=
  ⟨by decide, by decide, (C7_scroll_spec stC7 (by decide) (by decide)).2.2.1.1,
   (C7_scroll_spec stC7 (by decide) (by decide)).2.2.2.2.2.2.1⟩

def stC8w : EState := { init_editor 24 80 with filename := "", modified := true }

def stC10w : EState :=
  { init_editor 24 80 with rows := [[120]], filename := "f", modified := true }

/-- Claim C8: a requested save that fails (no filename set, or the
target cannot be opened for writing) sets an on-screen error message and
leaves the document lines, the cursor and the dirty flag unchanged,
while the process keeps editing (the keypress step does not quit); the
dirty flag becomes false exactly on a successful save and is otherwise
untouched. -/
theorem C8_save_failure_preserves_state (fsOk : Bool) (err : String) (s : EState) :
    (save_file fsOk err s).1.rows = s.rows ∧
    (save_file fsOk err s).1.cursor_x = s.cursor_x ∧
    (save_file fsOk err s).1.cursor_y = s.cursor_y ∧
    (save_file fsOk err s).1.modified =
      (if s.filename = "" then s.modified else if fsOk then false else s.modified) ∧
    (save_file fsOk err s).1.status_msg =
      (if s.filename = "" then ("ERROR: No filename" : String).take 79
       else if fsOk then ("Saved: " ++ s.filename).take 79
       else ("I/O error: " ++ err).take 79) ∧
    ((save_file fsOk err s).2 = none ↔ (s.filename = "" ∨ fsOk = false)) ∧
    (process_keypress fsOk err s [19]).quit = false := by
  unfold save_file set_status_message process_keypress read_key
  by_cases hf : s.filename = "" <;> cases fsOk <;> simp [hf]

/-- Witness for C8: a dirty, unnamed state on which the save fails and
the state is untouched. -/
theorem C8_save_failure_preserves_state_witness :
    (save_file false "boom" stC8w).1.rows = stC8w.rows ∧
    (save_file false "boom" stC8w).1.modified = true :=
  ⟨(C8_save_failure_preserves_state false "boom" stC8w).1, by decide⟩



theorem getD_app_shift {α : Type} (l₁ l₂ : List α) (d : α) (i k : Nat)
    (hi : i = l₁.length + k) : (l₁ ++ l₂).getD i d = l₂.getD k d := by
  subst hi
  exact getD_app_right l₁ l₂ d k

theorem take_app_at {α : Type} (l₁ l₂ : List α) (i : Nat) (hi : i = l₁.length) :
    (l₁ ++ l₂).take i = l₁ := by
  subst hi
  rw [show l₁.length = l₁.length + 0 by omega, List.take_append 0]
  simp

theorem drop_app_at {α : Type} (l₁ l₂ : List α) (i k : Nat) (hi : i = l₁.length + k) :
    (l₁ ++ l₂).drop i = l₂.drop k := by
  subst hi
  exact List.drop_append k

theorem set_app_at {α : Type} (l₁ : List α) (x y : α) (l₂ : List α) (i : Nat)
    (hi : i = l₁.length) : (l₁ ++ x :: l₂).set i y = l₁ ++ y :: l₂ := by
  subst hi
  exact set_app_len l₁ x y l₂

theorem take_succ_getD {α : Type} (l : List α) (i : Nat) (d : α) (h : i < l.length) :
    l.take (i + 1) = l.take i ++ [l.getD i d] := by
  induction l generalizing i with
  | nil => simp at h
  | cons a t ih =>
    cases i with
    | zero => simp [List.getD_cons_zero]
    | succ j =>
      have hj : j < t.length := by simp only [List.length_cons] at h; omega
      simp [List.getD_cons_succ, ih j hj]

theorem getD_insert_above {α : Type} (l : List α) (i : Nat) (x d : α) (h : i < l.length) :
    (l.take i ++ x :: l.drop i).getD (i + 1) d = l.getD i d := by
  rw [getD_app_shift (l.take i) (x :: l.drop i) d (i + 1) 1
    (by simp [List.length_take]; omega)]
  rw [List.getD_cons_succ, drop_cons_getD l i d h, List.getD_cons_zero]

/-- Case 3 of `editor_insert_newline` (cursor at column 0 of a real row):
an empty line is inserted before the current row. -/
theorem newline_at_col0 (s : EState) (hlt : s.cursor_y < s.rows.length)
    (hx : s.cursor_x = 0) :
    editor_insert_newline s =
      { s with rows := s.rows.take s.cursor_y ++ [] :: s.rows.drop s.cursor_y,
               cursor_y := s.cursor_y + 1, cursor_x := 0, modified := true } := by
  have hn : ¬ s.rows.length = 0 := by omega
  have hge : ¬ s.cursor_y ≥ s.rows.length := by omega
  have hg : ¬ s.cursor_y > s.rows.length := by omega
  simp only [editor_insert_newline, hn, hge, hx, if_false, ite_false, if_pos rfl,
    if_true, editor_insert_row, hg]

/-- Case 4 of `editor_insert_newline` (cursor inside a real row at a
nonzero column): the tail of the current row from the cursor becomes a
new row below, and the current row is truncated at the cursor. -/
theorem newline_split (s : EState) (hlt : s.cursor_y < s.rows.length)
    (hx : s.cursor_x ≠ 0) :
    editor_insert_newline s =
      { s with
        rows := s.rows.take s.cursor_y ++
          (s.rows.getD s.cursor_y []).take s.cursor_x ::
            (s.rows.getD s.cursor_y []).drop s.cursor_x :: s.rows.drop (s.cursor_y + 1),
        cursor_y := s.cursor_y + 1, cursor_x := 0, modified := true } := by
  have hn : ¬ s.rows.length = 0 := by omega
  have hge : ¬ s.cursor_y ≥ s.rows.length := by omega
  have hg : ¬ s.cursor_y + 1 > s.rows.length := by omega
  simp only [editor_insert_newline, hn, hge, hx, if_false, ite_false,
    editor_insert_row, hg]
  have h1 : s.rows.take (s.cursor_y + 1) =
      s.rows.take s.cursor_y ++ [s.rows.getD s.cursor_y []] :=
    take_succ_getD s.rows s.cursor_y [] hlt
  have h2 : (s.rows.take (s.cursor_y + 1) ++
        (s.rows.getD s.cursor_y []).drop s.cursor_x :: s.rows.drop (s.cursor_y + 1)).set
          s.cursor_y ((s.rows.getD s.cursor_y []).take s.cursor_x) =
      s.rows.take s.cursor_y ++
        (s.rows.getD s.cursor_y []).take s.cursor_x ::
          (s.rows.getD s.cursor_y []).drop s.cursor_x :: s.rows.drop (s.cursor_y + 1) := by
    rw [h1, List.append_assoc, List.singleton_append]
    rw [set_app_at _ _ _ _ _ (by simp [List.length_take]; omega)]
  rw [h2]



def stC3w : EState :=
  { init_editor 24 80 with rows := [[97, 98, 99]], cursor_y := 0, cursor_x := 3 }

/-- Claim C3: the Enter operation satisfies the four-case specification
in priority order: empty document, cursor past the end, cursor at column
0, and the general split. -/
theorem C3_split_line_cases (s : EState) (hinv : cursorInv s) :
    (s.rows.length = 0 →
      (editor_insert_newline s).rows = [[], []] ∧
      (editor_insert_newline s).cursor_y = 1 ∧
      (editor_insert_newline s).cursor_x = 0) ∧
    (s.rows.length ≠ 0 → s.cursor_y ≥ s.rows.length →
      (editor_insert_newline s).rows = s.rows ++ [[]] ∧
      (editor_insert_newline s).cursor_y = s.rows.length ∧
      (editor_insert_newline s).cursor_x = 0) ∧
    (s.cursor_y < s.rows.length → s.cursor_x = 0 →
      (editor_insert_newline s).rows =
        s.rows.take s.cursor_y ++ [] :: s.rows.drop s.cursor_y ∧
      (editor_insert_newline s).rows.getD (s.cursor_y + 1) [] =
        s.rows.getD s.cursor_y [] ∧
      (editor_insert_newline s).cursor_y = s.cursor_y + 1 ∧
      (editor_insert_newline s).cursor_x = 0) ∧
    (s.cursor_y < s.rows.length → s.cursor_x ≠ 0 →
      (editor_insert_newline s).rows =
        s.rows.take s.cursor_y ++
          (s.rows.getD s.cursor_y []).take s.cursor_x ::
            (s.rows.getD s.cursor_y []).drop s.cursor_x ::
              s.rows.drop (s.cursor_y + 1) ∧
      ((editor_insert_newline s).rows.getD s.cursor_y []).length = s.cursor_x ∧
      (editor_insert_newline s).cursor_y = s.cursor_y + 1 ∧
      (editor_insert_newline s).cursor_x = 0) := by
  refine ⟨?_, ?_, ?_, ?_⟩
  · intro hn
    have hrows : s.rows = [] := List.length_eq_zero.mp hn
    simp [editor_insert_newline, editor_insert_row, hrows]
  · intro hn hge
    have hg : ¬ s.rows.length > s.rows.length := by omega
    simp only [editor_insert_newline, hn, if_false, ite_false, if_pos hge,
      editor_insert_row, hg, List.take_length, List.drop_length]
    refine ⟨by simp, by simp, by simp⟩
  · intro hlt hx
    rw [newline_at_col0 s hlt hx]
    exact ⟨rfl, getD_insert_above s.rows s.cursor_y [] [] hlt, rfl, rfl⟩
  · intro hlt hx
    have hcol : s.cursor_x ≤ (s.rows.getD s.cursor_y []).length := by
      rcases hinv with ⟨_, hc⟩ | ⟨he, _⟩
      · exact hc
      · omega
    rw [newline_split s hlt hx]
    refine ⟨rfl, ?_, rfl, rfl⟩
    show ((s.rows.take s.cursor_y ++
      (s.rows.getD s.cursor_y []).take s.cursor_x ::
        (s.rows.getD s.cursor_y []).drop s.cursor_x ::
          s.rows.drop (s.cursor_y + 1)).getD s.cursor_y []).length = s.cursor_x
    rw [getD_app_at_len _ _ _ _ _ (by simp [List.length_take]; omega)]
    rw [List.length_take]
    omega

/-- Witness for C3 (the spec's own scenario): document `["abc"]`, cursor
at the end of the line (0,3); Enter gives `["abc", ""]`, cursor (1,0). -/
theorem C3_split_line_cases_witness :
    cursorInv stC3w ∧
    (editor_insert_newline stC3w).rows = [[97, 98, 99], []] ∧
    (editor_insert_newline stC3w).cursor_y = 1 ∧
    (editor_insert_newline stC3w).cursor_x = 0 := by
  have h := (C3_split_line_cases stC3w (by decide)).2.2.2 (by decide) (by decide)
  exact ⟨by decide, by rw [h.1]; rfl, h.2.2.1, h.2.2.2⟩



def stC5 : EState :=
  { init_editor 24 80 with rows := [[97, 98], [99, 100]], cursor_y := 1, cursor_x := 0 }

/-- Claim C5: Backspace removes the byte left of the cursor when
`col > 0`; at column 0 of a non-first row it merges the row into the
previous one, placing the cursor at the pre-merge end of the previous
row; at (0,0) it is a no-op; and on `["ab","cd"]` with cursor (1,0) it
yields `["abcd"]` with cursor (0,2). -/
theorem C5_delete_char_spec (s : EState) (hrow : s.cursor_y < s.rows.length)
    (hcol : s.cursor_x ≤ (s.rows.getD s.cursor_y []).length) :
    (0 < s.cursor_x →
      (editor_delete_char s).rows = s.rows.set s.cursor_y
        ((s.rows.getD s.cursor_y []).take (s.cursor_x - 1) ++
          (s.rows.getD s.cursor_y []).drop s.cursor_x) ∧
      (editor_delete_char s).cursor_y = s.cursor_y ∧
      (editor_delete_char s).cursor_x = s.cursor_x - 1) ∧
    (s.cursor_x = 0 → 0 < s.cursor_y →
      (editor_delete_char s).rows = s.rows.take (s.cursor_y - 1) ++
        (s.rows.getD (s.cursor_y - 1) [] ++ s.rows.getD s.cursor_y []) ::
          s.rows.drop (s.cursor_y + 1) ∧
      (editor_delete_char s).cursor_y = s.cursor_y - 1 ∧
      (editor_delete_char s).cursor_x = (s.rows.getD (s.cursor_y - 1) []).length) ∧
    (s.cursor_x = 0 → s.cursor_y = 0 → editor_delete_char s = s) ∧
    ((editor_delete_char stC5).rows = [[97, 98, 99, 100]] ∧
      (editor_delete_char stC5).cursor_y = 0 ∧
      (editor_delete_char stC5).cursor_x = 2) := by
  have hn : ¬ s.rows.length = 0 := by omega
  have hge : ¬ s.cursor_y ≥ s.rows.length := by omega
  refine ⟨?_, ?_, ?_, by decide⟩
  · intro hx
    have h00 : ¬ (s.cursor_x = 0 ∧ s.cursor_y = 0) := by omega
    simp only [editor_delete_char, hn, hge, h00, if_false, ite_false, if_pos hx]
    refine ⟨?_, trivial, trivial⟩
    have hd : ¬ s.cursor_x - 1 ≥ (s.rows.getD s.cursor_y []).length := by omega
    simp only [editor_row_delete_char, hd, if_false, ite_false]
    have e : s.cursor_x - 1 + 1 = s.cursor_x := by omega
    rw [e]
  · intro hx hy
    rw [delete_char_merge s hrow hx hy]
    refine ⟨?_, ?_, ?_⟩ <;> trivial
  · intro hx hy
    simp only [editor_delete_char, hn, hge, if_false, ite_false, hx, hy]
    simp

/-- Witness for C5: the bounds hypotheses hold at the claim's scenario
state `["ab","cd"]`, cursor (1,0), and the merge case applies there. -/
theorem C5_delete_char_spec_witness :
    (editor_delete_char stC5).rows = [[97, 98], [99, 100]].take 0 ++
      (([[97, 98], [99, 100]] : List (List Nat)).getD 0 [] ++
        ([[97, 98], [99, 100]] : List (List Nat)).getD 1 []) ::
        [[97, 98], [99, 100]].drop 2 ∧
    (editor_delete_char stC5).cursor_y = 0 ∧
    (editor_delete_char stC5).cursor_x = 2 := by
  have h := (C5_delete_char_spec stC5 (by decide) (by decide)).2.1 (by decide) (by decide)
  exact ⟨h.1, h.2.1, by decide⟩



def stC4w : EState :=
  { init_editor 24 80 with rows := [[97, 98, 99]], cursor_y := 0, cursor_x := 2 }

/-- Claim C4: for any real cursor position (row < num_lines,
col <= line length), pressing Enter and then Backspace at the resulting
cursor (row+1, 0) restores the original line sequence byte-for-byte and
puts the cursor back at (row, col). -/
theorem C4_split_then_merge_roundtrip (s : EState)
    (hrow : s.cursor_y < s.rows.length)
    (hcol : s.cursor_x ≤ (s.rows.getD s.cursor_y []).length) :
    (editor_insert_newline s).cursor_y = s.cursor_y + 1 ∧
    (editor_insert_newline s).cursor_x = 0 ∧
    (editor_delete_char (editor_insert_newline s)).rows = s.rows ∧
    (editor_delete_char (editor_insert_newline s)).cursor_y = s.cursor_y ∧
    (editor_delete_char (editor_insert_newline s)).cursor_x = s.cursor_x := by
  by_cases hx : s.cursor_x = 0
  · rw [newline_at_col0 s hrow hx]
    rw [delete_char_merge _
      (by dsimp only
          simp only [List.length_append, List.length_cons, List.length_take,
            List.length_drop]
          omega)
      (by dsimp only) (by dsimp only; omega)]
    dsimp only
    have e1 : s.cursor_y + 1 - 1 = s.cursor_y := by omega
    have hT : (s.rows.take s.cursor_y).length = s.cursor_y := by
      rw [List.length_take]; omega
    have hgA : ((s.rows.take s.cursor_y ++ [] :: s.rows.drop s.cursor_y).getD
        s.cursor_y []) = [] := getD_app_at_len _ _ _ _ _ hT.symm
    have hgB : ((s.rows.take s.cursor_y ++ [] :: s.rows.drop s.cursor_y).getD
        (s.cursor_y + 1) []) = s.rows.getD s.cursor_y [] :=
      getD_insert_above s.rows s.cursor_y [] [] hrow
    have htk : ((s.rows.take s.cursor_y ++ [] :: s.rows.drop s.cursor_y).take
        s.cursor_y) = s.rows.take s.cursor_y := take_app_at _ _ _ hT.symm
    have hdp : ((s.rows.take s.cursor_y ++ [] :: s.rows.drop s.cursor_y).drop
        (s.cursor_y + 1 + 1)) = s.rows.drop (s.cursor_y + 1) := by
      rw [drop_app_at _ ([] :: s.rows.drop s.cursor_y) (s.cursor_y + 1 + 1) 2
        (by omega)]
      rw [show (2 : Nat) = 1 + 1 by rfl, ← List.drop_drop, ← List.drop_drop]
      simp [List.drop_drop]
    rw [e1, hgA, hgB, htk, hdp]
    refine ⟨rfl, rfl, ?_, rfl, by rw [hx]; rfl⟩
    rw [List.nil_append]
    exact (decomp_at s.rows s.cursor_y [] hrow).symm
  · rw [newline_split s hrow hx]
    rw [delete_char_merge _
      (by dsimp only
          simp only [List.length_append, List.length_cons, List.length_take,
            List.length_drop]
          omega)
      (by dsimp only) (by dsimp only; omega)]
    dsimp only
    have e1 : s.cursor_y + 1 - 1 = s.cursor_y := by omega
    have hT : (s.rows.take s.cursor_y).length = s.cursor_y := by
      rw [List.length_take]; omega
    have hgA : ((s.rows.take s.cursor_y ++
        (s.rows.getD s.cursor_y []).take s.cursor_x ::
          (s.rows.getD s.cursor_y []).drop s.cursor_x ::
            s.rows.drop (s.cursor_y + 1)).getD s.cursor_y []) =
        (s.rows.getD s.cursor_y []).take s.cursor_x :=
      getD_app_at_len _ _ _ _ _ hT.symm
    have hgB : ((s.rows.take s.cursor_y ++
        (s.rows.getD s.cursor_y []).take s.cursor_x ::
          (s.rows.getD s.cursor_y []).drop s.cursor_x ::
            s.rows.drop (s.cursor_y + 1)).getD (s.cursor_y + 1) []) =
        (s.rows.getD s.cursor_y []).drop s.cursor_x := by
      rw [getD_app_shift _ _ _ (s.cursor_y + 1) 1 (by omega)]
      rfl
    have htk : ((s.rows.take s.cursor_y ++
        (s.rows.getD s.cursor_y []).take s.cursor_x ::
          (s.rows.getD s.cursor_y []).drop s.cursor_x ::
            s.rows.drop (s.cursor_y + 1)).take s.cursor_y) = s.rows.take s.cursor_y :=
      take_app_at _ _ _ hT.symm
    have hdp : ((s.rows.take s.cursor_y ++
        (s.rows.getD s.cursor_y []).take s.cursor_x ::
          (s.rows.getD s.cursor_y []).drop s.cursor_x ::
            s.rows.drop (s.cursor_y + 1)).drop (s.cursor_y + 1 + 1)) =
        s.rows.drop (s.cursor_y + 1) := by
      rw [drop_app_at _ _ (s.cursor_y + 1 + 1) 2 (by omega)]
      rfl
    rw [e1, hgA, hgB, htk, hdp]
    refine ⟨rfl, rfl, ?_, rfl, ?_⟩
    · rw [List.take_append_drop]
      exact (decomp_at s.rows s.cursor_y [] hrow).symm
    · rw [List.length_take]
      omega

/-- Witness for C4: the hypotheses hold at `["abc"]` with cursor (0,2)
and the round-trip restores the document and cursor there. -/
theorem C4_split_then_merge_roundtrip_witness :
    (editor_delete_char (editor_insert_newline stC4w)).rows = stC4w.rows ∧
    (editor_delete_char (editor_insert_newline stC4w)).cursor_y = 0 ∧
    (editor_delete_char (editor_insert_newline stC4w)).cursor_x = 2 := by
  have h := C4_split_then_merge_roundtrip stC4w (by decide) (by decide)
  exact ⟨h.2.2.1, h.2.2.2.1, h.2.2.2.2⟩



/-- Appending rows one at a time at index `num_rows` (as `open_file`'s
read loop does) appends them in order. -/
theorem rows_after_inserts (L : List (List Nat)) (s : EState) :
    (L.foldl (fun st l => editor_insert_row st st.rows.length l) s).rows =
      s.rows ++ L := by
  induction L generalizing s with
  | nil => simp
  | cons l L' ih =>
    have h1 : (editor_insert_row s s.rows.length l).rows = s.rows ++ [l] := by
      simp [editor_insert_row]
    rw [List.foldl_cons, ih, h1]
    simp

/-- Parsing `save_file`'s output recovers the rows when no row contains
a NUL, newline or carriage-return byte. -/
theorem parsed_saved (R : List (List Nat))
    (h : ∀ l ∈ R, ∀ b ∈ l, b ≠ 0 ∧ b ≠ 10 ∧ b ≠ 13) :
    parsedLines (saveBytes R) = R := by
  induction R with
  | nil => rfl
  | cons r R' ih =>
    have hr : ∀ b ∈ r, b ≠ 0 ∧ b ≠ 10 ∧ b ≠ 13 :=
      fun b hb => h r (List.mem_cons_self r R') b hb
    have hR' : ∀ l ∈ R', ∀ b ∈ l, b ≠ 0 ∧ b ≠ 10 ∧ b ≠ 13 :=
      fun l hl => h l (List.mem_cons_of_mem r hl)
    have h0 : rowSaveBytes r = r := takeWhile_ne_zero r (fun b hb => (hr b hb).1)
    have h10 : ∀ b ∈ r, b ≠ 10 := fun b hb => (hr b hb).2.1
    show parsedLines (rowSaveBytes r ++ 10 :: saveBytes R') = r :: R'
    rw [h0]
    unfold parsedLines
    rw [getline_go_chunk r h10 [] (saveBytes R')]
    simp only [List.map_cons, List.nil_append]
    rw [strip_app_ten r (fun b hb => ⟨(hr b hb).2.1, (hr b hb).2.2⟩)]
    exact congrArg (r :: ·) (ih hR')

/-- Claim C6 (counterexample): a one-line document whose line is the
single NUL byte has no line-terminator bytes, yet `save_file` writes the
line with `fprintf "%s"`, which stops at the NUL: reopening yields one
empty line, not the original content. -/
theorem C6_counterexample :
    (open_file (init_editor 24 80) (some "f") (some (saveBytes [[0]]))).rows
      = [[]] ∧
    ([[]] : List (List Nat)) ≠ [[0]] := by
  exact ⟨by decide, by decide⟩

/-- Claim C6 (amended): for every document whose lines contain no NUL
and no line-terminator (newline or carriage-return) bytes, saving and
reopening yields the same number of lines with byte-for-byte identical
content — including N = 0, N = 1 with an empty line, and N > 1 with
mixed lines, which the witness instantiates. (`fprintf "%s"` truncates a
line at an embedded NUL, so NUL-free must be added to the claim's
hypothesis.) -/
theorem C6_save_open_roundtrip (R : List (List Nat)) (p : String)
    (h : ∀ l ∈ R, ∀ b ∈ l, b ≠ 0 ∧ b ≠ 10 ∧ b ≠ 13) :
    (open_file (init_editor 24 80) (some p) (some (saveBytes R))).rows = R ∧
    (open_file (init_editor 24 80) (some p) (some (saveBytes R))).rows.length
      = R.length := by
  have hrows : (open_file (init_editor 24 80) (some p) (some (saveBytes R))).rows
      = R := by
    simp only [open_file, set_status_message]
    rw [rows_after_inserts]
    rw [parsed_saved R h]
    rfl
  exact ⟨hrows, by rw [hrows]⟩

/-- Witness for C6: the round-trip at a three-line document mixing empty
and non-empty lines. -/
theorem C6_save_open_roundtrip_witness :
    (open_file (init_editor 24 80) (some "f")
      (some (saveBytes [[], [104, 105], []]))).rows = [[], [104, 105], []] :=
  (C6_save_open_roundtrip [[], [104, 105], []] "f" (by decide)).1


end Ned
